import Mathlib

/-!
# HMAC signing method of `xyproto/jwt` (`hmac.go`)

A shallow embedding of `SigningMethodHMAC` (`Alg`, `Register`,
`NewSigningMethodHMAC`, `Sign`, `Verify`) together with the parts of the Go
standard library it calls (`crypto.Hash`, `crypto/hmac`, `crypto/subtle`,
`crypto/sha256`, `crypto/sha512`).

Conventions of the embedding:

* a Go `string` and a Go `[]byte` are both finite byte sequences, so both are
  `List UInt8`; the conversion `[]byte(s)` is the identity on the bytes;
* a Go `error` result is `Option Error`, `none` standing for `nil`;
* a Go `interface{}` argument is a value of `Any`, which records the dynamic type;
* the words of SHA-2 are natural numbers reduced modulo `2 ^ 32` or `2 ^ 64`.
-/

namespace jwt

/-- A Go byte slice. -/
abbrev Bytes := List UInt8

/-- A Go string: an immutable sequence of bytes. -/
abbrev GoString := List UInt8

/-- The bytes of a text literal, as the Go compiler stores it (UTF-8). -/
def str (s : String) : GoString := s.toList.flatMap String.utf8EncodeChar

/-! ## SHA-2 (`crypto/sha256`, `crypto/sha512`), after FIPS 180-4 -/

namespace sha2

/-- The eight working variables, also used for the chaining value. -/
structure State where
  a : Nat
  b : Nat
  c : Nat
  d : Nat
  e : Nat
  f : Nat
  g : Nat
  h : Nat
  deriving DecidableEq, Repr

/-- What distinguishes the members of the SHA-2 family. -/
structure Variant where
  /-- Bits of a word: 32 or 64. -/
  wordBits : Nat
  /-- Round constants, one per round. -/
  k : List Nat
  /-- Initial chaining value. -/
  iv : State
  /-- Rotation amounts of the big sigma functions. -/
  bigSigma0 : Nat × Nat × Nat
  bigSigma1 : Nat × Nat × Nat
  /-- Two rotation amounts and one shift amount of the small sigma functions. -/
  smallSigma0 : Nat × Nat × Nat
  smallSigma1 : Nat × Nat × Nat
  /-- Number of words of the final state that make up the digest. -/
  outWords : Nat

/-- Bytes of a block: sixteen words. -/
def Variant.blockSize (v : Variant) : Nat := 2 * v.wordBits

/-- Bytes of the digest. -/
def Variant.size (v : Variant) : Nat := v.outWords * (v.wordBits / 8)

/-- Rotate the `w`-bit word `x` right by `n`. -/
def rotr (w x n : Nat) : Nat := ((x >>> n) ||| (x <<< (w - n))) % 2 ^ w

def bigSigma (w : Nat) (r : Nat × Nat × Nat) (x : Nat) : Nat :=
  rotr w x r.1 ^^^ rotr w x r.2.1 ^^^ rotr w x r.2.2

def smallSigma (w : Nat) (r : Nat × Nat × Nat) (x : Nat) : Nat :=
  rotr w x r.1 ^^^ rotr w x r.2.1 ^^^ (x >>> r.2.2)

/-- The choice function: bits of `y` where `x` is set, bits of `z` elsewhere. -/
def ch (w x y z : Nat) : Nat := (x &&& y) ^^^ (((2 ^ w - 1) ^^^ x) &&& z)

def maj (x y z : Nat) : Nat := (x &&& y) ^^^ (x &&& z) ^^^ (y &&& z)

/-- One round with round constant `k` and schedule word `wt`. -/
def round (v : Variant) (s : State) (k wt : Nat) : State :=
  let m := 2 ^ v.wordBits
  let t1 := (s.h + bigSigma v.wordBits v.bigSigma1 s.e + ch v.wordBits s.e s.f s.g + k + wt) % m
  let t2 := (bigSigma v.wordBits v.bigSigma0 s.a + maj s.a s.b s.c) % m
  { a := (t1 + t2) % m, b := s.a, c := s.b, d := s.c,
    e := (s.d + t1) % m, f := s.e, g := s.f, h := s.g }

/-- The schedule word sixteen places after the head of the window `win`. -/
def nextWord (v : Variant) (win : List Nat) : Nat :=
  (smallSigma v.wordBits v.smallSigma1 (win.getD 14 0) + win.getD 9 0
    + smallSigma v.wordBits v.smallSigma0 (win.getD 1 0) + win.getD 0 0) % 2 ^ v.wordBits

/-- All rounds: `win` holds the sixteen schedule words from the current round on. -/
def rounds (v : Variant) : List Nat → List Nat → State → State
  | [], _, s => s
  | _ :: _, [], s => s
  | k :: ks, wt :: win, s => rounds v ks (win ++ [nextWord v (wt :: win)]) (round v s k wt)

def State.add (m : Nat) (s t : State) : State :=
  { a := (s.a + t.a) % m, b := (s.b + t.b) % m, c := (s.c + t.c) % m, d := (s.d + t.d) % m,
    e := (s.e + t.e) % m, f := (s.f + t.f) % m, g := (s.g + t.g) % m, h := (s.h + t.h) % m }

/-- The compression function on one block given as sixteen words. -/
def compress (v : Variant) (s : State) (block : List Nat) : State :=
  State.add (2 ^ v.wordBits) s (rounds v v.k block s)

/-- Big-endian value of a byte sequence. -/
def beValue (bs : List UInt8) : Nat := bs.foldl (fun acc b => acc * 256 + b.toNat) 0

/-- The `n` low-order bytes of `x`, most significant first. -/
def beBytes : Nat → Nat → List UInt8
  | 0, _ => []
  | n + 1, x => UInt8.ofNat (x >>> (8 * n)) :: beBytes n x

/-- Split `bs` into `n` words of `wb` bytes each. -/
def toWords (wb : Nat) : Nat → List UInt8 → List Nat
  | 0, _ => []
  | n + 1, bs => beValue (bs.take wb) :: toWords wb n (bs.drop wb)

/-- Padding: a one bit, zero bits up to the length field, then the bit length. -/
def padding (v : Variant) (len : Nat) : List UInt8 :=
  let lenBytes := v.wordBits / 4
  let zeros := (v.blockSize - (len + 1 + lenBytes) % v.blockSize) % v.blockSize
  (0x80 : UInt8) :: (List.replicate zeros 0 ++ beBytes lenBytes (8 * len))

/-- Absorb `n` blocks of `bs`. -/
def absorb (v : Variant) : Nat → List UInt8 → State → State
  | 0, _, s => s
  | n + 1, bs, s =>
    absorb v n (bs.drop v.blockSize)
      (compress v s (toWords (v.wordBits / 8) 16 (bs.take v.blockSize)))

def State.words (s : State) : List Nat := [s.a, s.b, s.c, s.d, s.e, s.f, s.g, s.h]

/-- The digest of `msg`. -/
def sum (v : Variant) (msg : List UInt8) : List UInt8 :=
  let padded := msg ++ padding v msg.length
  let s := absorb v (padded.length / v.blockSize) padded v.iv
  (s.words.take v.outWords).flatMap (beBytes (v.wordBits / 8))

def k256 : List Nat :=
  [0x428a2f98, 0x71374491, 0xb5c0fbcf, 0xe9b5dba5, 0x3956c25b, 0x59f111f1,
   0x923f82a4, 0xab1c5ed5, 0xd807aa98, 0x12835b01, 0x243185be, 0x550c7dc3,
   0x72be5d74, 0x80deb1fe, 0x9bdc06a7, 0xc19bf174, 0xe49b69c1, 0xefbe4786,
   0x0fc19dc6, 0x240ca1cc, 0x2de92c6f, 0x4a7484aa, 0x5cb0a9dc, 0x76f988da,
   0x983e5152, 0xa831c66d, 0xb00327c8, 0xbf597fc7, 0xc6e00bf3, 0xd5a79147,
   0x06ca6351, 0x14292967, 0x27b70a85, 0x2e1b2138, 0x4d2c6dfc, 0x53380d13,
   0x650a7354, 0x766a0abb, 0x81c2c92e, 0x92722c85, 0xa2bfe8a1, 0xa81a664b,
   0xc24b8b70, 0xc76c51a3, 0xd192e819, 0xd6990624, 0xf40e3585, 0x106aa070,
   0x19a4c116, 0x1e376c08, 0x2748774c, 0x34b0bcb5, 0x391c0cb3, 0x4ed8aa4a,
   0x5b9cca4f, 0x682e6ff3, 0x748f82ee, 0x78a5636f, 0x84c87814, 0x8cc70208,
   0x90befffa, 0xa4506ceb, 0xbef9a3f7, 0xc67178f2]

def k512 : List Nat :=
  [0x428a2f98d728ae22, 0x7137449123ef65cd, 0xb5c0fbcfec4d3b2f, 0xe9b5dba58189dbbc,
   0x3956c25bf348b538, 0x59f111f1b605d019, 0x923f82a4af194f9b, 0xab1c5ed5da6d8118,
   0xd807aa98a3030242, 0x12835b0145706fbe, 0x243185be4ee4b28c, 0x550c7dc3d5ffb4e2,
   0x72be5d74f27b896f, 0x80deb1fe3b1696b1, 0x9bdc06a725c71235, 0xc19bf174cf692694,
   0xe49b69c19ef14ad2, 0xefbe4786384f25e3, 0x0fc19dc68b8cd5b5, 0x240ca1cc77ac9c65,
   0x2de92c6f592b0275, 0x4a7484aa6ea6e483, 0x5cb0a9dcbd41fbd4, 0x76f988da831153b5,
   0x983e5152ee66dfab, 0xa831c66d2db43210, 0xb00327c898fb213f, 0xbf597fc7beef0ee4,
   0xc6e00bf33da88fc2, 0xd5a79147930aa725, 0x06ca6351e003826f, 0x142929670a0e6e70,
   0x27b70a8546d22ffc, 0x2e1b21385c26c926, 0x4d2c6dfc5ac42aed, 0x53380d139d95b3df,
   0x650a73548baf63de, 0x766a0abb3c77b2a8, 0x81c2c92e47edaee6, 0x92722c851482353b,
   0xa2bfe8a14cf10364, 0xa81a664bbc423001, 0xc24b8b70d0f89791, 0xc76c51a30654be30,
   0xd192e819d6ef5218, 0xd69906245565a910, 0xf40e35855771202a, 0x106aa07032bbd1b8,
   0x19a4c116b8d2d0c8, 0x1e376c085141ab53, 0x2748774cdf8eeb99, 0x34b0bcb5e19b48a8,
   0x391c0cb3c5c95a63, 0x4ed8aa4ae3418acb, 0x5b9cca4f7763e373, 0x682e6ff3d6b2b8a3,
   0x748f82ee5defb2fc, 0x78a5636f43172f60, 0x84c87814a1f0ab72, 0x8cc702081a6439ec,
   0x90befffa23631e28, 0xa4506cebde82bde9, 0xbef9a3f7b2c67915, 0xc67178f2e372532b,
   0xca273eceea26619c, 0xd186b8c721c0c207, 0xeada7dd6cde0eb1e, 0xf57d4f7fee6ed178,
   0x06f067aa72176fba, 0x0a637dc5a2c898a6, 0x113f9804bef90dae, 0x1b710b35131c471b,
   0x28db77f523047d84, 0x32caab7b40c72493, 0x3c9ebe0a15c9bebc, 0x431d67c49c100d4c,
   0x4cc5d4becb3e42b6, 0x597f299cfc657e2a, 0x5fcb6fab3ad6faec, 0x6c44198c4a475817]

/-- SHA-256. -/
def sha256 : Variant where
  wordBits := 32
  k := k256
  iv := ⟨0x6a09e667, 0xbb67ae85, 0x3c6ef372, 0xa54ff53a,
         0x510e527f, 0x9b05688c, 0x1f83d9ab, 0x5be0cd19⟩
  bigSigma0 := (2, 13, 22)
  bigSigma1 := (6, 11, 25)
  smallSigma0 := (7, 18, 3)
  smallSigma1 := (17, 19, 10)
  outWords := 8

/-- SHA-512. -/
def sha512 : Variant where
  wordBits := 64
  k := k512
  iv := ⟨0x6a09e667f3bcc908, 0xbb67ae8584caa73b, 0x3c6ef372fe94f82b, 0xa54ff53a5f1d36f1,
         0x510e527fade682d1, 0x9b05688c2b3e6c1f, 0x1f83d9abfb41bd6b, 0x5be0cd19137e2179⟩
  bigSigma0 := (28, 34, 39)
  bigSigma1 := (14, 18, 41)
  smallSigma0 := (1, 8, 7)
  smallSigma1 := (19, 61, 6)
  outWords := 8

/-- SHA-384: SHA-512 with another initial value, truncated to six words. -/
def sha384 : Variant :=
  { sha512 with
    iv := ⟨0xcbbb9d5dc1059ed8, 0x629a292a367cd507, 0x9159015a3070dd17, 0x152fecd8f70e5939,
           0x67332667ffc00b31, 0x8eb44a8768581511, 0xdb0c2e0d64f98fa7, 0x47b5481dbefa4fa4⟩
    outWords := 6 }

end sha2

/-! ## Hash functions and their registration (`hash`, `crypto`) -/

/-- What `crypto/hmac` uses of a `hash.Hash`: its sizes and the digest of the
bytes written to it since it was created or reset. -/
structure HashFunc where
  Size : Nat
  BlockSize : Nat
  Sum : Bytes → Bytes

namespace crypto

/-- Go's `crypto.Hash`: an unsigned number naming a hash function. -/
structure Hash where
  id : Nat
  deriving DecidableEq, Repr

def SHA256 : Hash := ⟨5⟩

def SHA384 : Hash := ⟨6⟩

def SHA512 : Hash := ⟨7⟩

/-- The table `crypto.hashes` of the running binary: the constructor registered
for each hash, `none` where the implementing package is not linked in. -/
abbrev Table := Hash → Option HashFunc

/-- `Hash.Available`: whether the hash function is linked into the binary. -/
def Hash.Available (h : Hash) (t : Table) : Bool := (t h).isSome

/-- `Hash.New`: the registered constructor. Go panics when there is none, so the
embedding asks for the evidence that there is one. -/
def Hash.New (h : Hash) (t : Table) (ok : h.Available t = true) : HashFunc := (t h).get ok

end crypto

/-! ## `crypto/subtle` and `crypto/hmac` -/

namespace subtle

/-- `subtle.ConstantTimeByteEq`: `int((uint32(x^y) - 1) >> 31)`. -/
def ConstantTimeByteEq (x y : UInt8) : Nat :=
  (((x ^^^ y).toNat + 2 ^ 32 - 1) % 2 ^ 32) >>> 31

/-- `subtle.ConstantTimeCompare`: `0` on different lengths, otherwise the bytewise
differences are or-ed together and the result compared with zero. -/
def ConstantTimeCompare (x y : Bytes) : Nat :=
  if x.length ≠ y.length then 0
  else ConstantTimeByteEq ((List.zip x y).foldl (fun v p => v ||| (p.1 ^^^ p.2)) 0) 0

end subtle

namespace hmac

/-- The state of the object `hmac.New` returns: both pads and the bytes written
to the inner hash so far. -/
structure HMAC where
  h : HashFunc
  opad : Bytes
  ipad : Bytes
  inner : Bytes

/-- The key as `hmac.New` stores it in a block: hashed first when longer than a
block, then copied into a zeroed block (`copy` stops at the end of the block). -/
def blockKey (h : HashFunc) (key : Bytes) : Bytes :=
  let key := if key.length > h.BlockSize then h.Sum key else key
  (key ++ List.replicate (h.BlockSize - key.length) 0).take h.BlockSize

/-- `hmac.New`. -/
def New (h : HashFunc) (key : Bytes) : HMAC :=
  let ipad := (blockKey h key).map (· ^^^ 0x36)
  let opad := (blockKey h key).map (· ^^^ 0x5c)
  { h := h, opad := opad, ipad := ipad, inner := ipad }

/-- `(*hmac).Write`. -/
def HMAC.Write (hm : HMAC) (p : Bytes) : HMAC := { hm with inner := hm.inner ++ p }

/-- `(*hmac).Sum`: appends the MAC to `b`. -/
def HMAC.Sum (hm : HMAC) (b : Bytes) : Bytes := b ++ hm.h.Sum (hm.opad ++ hm.h.Sum hm.inner)

/-- `hmac.Equal`. -/
def Equal (mac1 mac2 : Bytes) : Bool := subtle.ConstantTimeCompare mac1 mac2 == 1

end hmac

/-- The keyed-hash message authentication code of RFC 2104,
`H((K ⊕ opad) ‖ H((K ⊕ ipad) ‖ text))`, the reference the signing method is
compared with. -/
def HMAC (h : HashFunc) (key text : Bytes) : Bytes :=
  h.Sum ((hmac.blockKey h key).map (· ^^^ 0x5c)
    ++ h.Sum ((hmac.blockKey h key).map (· ^^^ 0x36) ++ text))

/-! ## The signing method (`hmac.go`) -/

/-- Modelled from the spec: the "decoding error (from the external collaborator)",
declared outside `hmac.go`; in Go a `base64.CorruptInputError`, which carries the
offset of the offending byte. -/
structure CorruptInputError where
  offset : Nat
  deriving DecidableEq, Repr

/-- The error values `Sign` and `Verify` return, one constructor per kind of the
error taxonomy. -/
inductive Error
  /-- Modelled from the spec: `InvalidKeyType`, "supplied key is not a byte
  sequence"; the variable is declared outside `hmac.go`. -/
  | ErrInvalidKeyType
  /-- Modelled from the spec: `HashUnavailable`, "configured hash function is not
  available in the running environment/build"; declared outside `hmac.go`. -/
  | ErrHashUnavailable
  /-- The variable of `hmac.go`: `errors.New("signature is invalid")`. -/
  | ErrSignatureInvalid
  /-- A decoding error, handed on as it is, "distinct from `SignatureInvalid`". -/
  | decode (e : CorruptInputError)
  deriving DecidableEq, Repr

export Error (ErrInvalidKeyType ErrHashUnavailable ErrSignatureInvalid)

/-- A value passed as `interface{}`, with its dynamic type. -/
inductive Any
  /-- The nil interface. -/
  | nil
  /-- Dynamic type `[]byte`. -/
  | bytes (b : Bytes)
  /-- Dynamic type `string`. -/
  | string (s : GoString)
  /-- Dynamic type `int`. -/
  | int (n : Int)
  /-- A defined type whose underlying type is `[]byte`, such as `type Secret []byte`. -/
  | named (typeName : GoString) (b : Bytes)
  deriving DecidableEq, Repr

/-- The type assertion `key.([]byte)`: succeeds on the dynamic type `[]byte` only. -/
def Any.assertBytes : Any → Option Bytes
  | .bytes b => some b
  | _ => none

/-- What `hmac.go` takes from outside: the table of linked hash functions and the
two segment functions of the package, which are not part of `hmac.go`. -/
structure Env where
  hashes : crypto.Table
  EncodeSegment : Bytes → GoString
  DecodeSegment : GoString → Except CorruptInputError Bytes

structure SigningMethodHMAC where
  Name : GoString
  Hash : crypto.Hash
  deriving DecidableEq, Repr

def SigningMethodHMAC.Alg (m : SigningMethodHMAC) : GoString := m.Name

/-- `Verify`: `none` is Go's `nil`, the signature is valid. -/
def SigningMethodHMAC.Verify (env : Env) (m : SigningMethodHMAC)
    (signingString signature : GoString) (key : Any) : Option Error :=
  match key.assertBytes with
  | none => some ErrInvalidKeyType
  | some keyBytes =>
    match env.DecodeSegment signature with
    | .error err => some (.decode err)
    | .ok sig =>
      if ok : m.Hash.Available env.hashes = true then
        let hasher := (hmac.New (m.Hash.New env.hashes ok) keyBytes).Write signingString
        if !hmac.Equal sig (hasher.Sum []) then some ErrSignatureInvalid else none
      else some ErrHashUnavailable

/-- `Sign`: the signature and the error, as Go returns them side by side. -/
def SigningMethodHMAC.Sign (env : Env) (m : SigningMethodHMAC)
    (signingString : GoString) (key : Any) : GoString × Option Error :=
  match key.assertBytes with
  | some keyBytes =>
    if ok : m.Hash.Available env.hashes = true then
      let hasher := (hmac.New (m.Hash.New env.hashes ok) keyBytes).Write signingString
      (env.EncodeSegment (hasher.Sum []), none)
    else ([], some ErrHashUnavailable)
  | none => ([], some ErrInvalidKeyType)

/-! ## Registration (`NewSigningMethodHMAC`, `Register`) -/

/-- A `SigningMethod` interface value. The methods of this file are used through
a pointer, so the value is the address of a `SigningMethodHMAC` on the heap. -/
abbrev SigningMethod := Nat

/-- The state the package variables live in: the allocated methods, the address
of each being its position, and the registry of signing methods. -/
structure World where
  heap : List SigningMethodHMAC
  signingMethods : GoString → Option (Unit → SigningMethod)

/-- The method a pointer points to. -/
def World.deref (w : World) (p : SigningMethod) : Option SigningMethodHMAC := w.heap.get? p

/-- Modelled from the spec: the registry's `register(name, factory)`, which is
not part of `hmac.go`; it "stores/overwrites the mapping" and always succeeds. -/
def RegisterSigningMethod (w : World) (alg : GoString) (f : Unit → SigningMethod) : World :=
  { w with signingMethods := fun a => if a = alg then some f else w.signingMethods a }

/-- Modelled from the spec: the registry's `lookup(name)`, which is not part of
`hmac.go`; it "returns the factory's product", or not-found for an unknown name. -/
def lookup (w : World) (alg : GoString) : Option SigningMethod :=
  (w.signingMethods alg).map (fun f => f ())

/-- `Register`: the factory is a closure over the pointer `m` itself. A pointer
that points nowhere cannot be read, and the world stays as it is. -/
def Register (w : World) (m : SigningMethod) : World :=
  match w.deref m with
  | some v => RegisterSigningMethod w v.Name (fun _ => m)
  | none => w

/-- `NewSigningMethodHMAC`: allocates the method, registers it, returns the pointer. -/
def NewSigningMethodHMAC (w : World) (name : GoString) (hash : crypto.Hash) :
    SigningMethod × World :=
  let m := w.heap.length
  (m, Register { w with heap := w.heap ++ [{ Name := name, Hash := hash }] } m)

/-- The package variables `SigningMethodHS256`, `SigningMethodHS384` and
`SigningMethodHS512` (pointers), and the world once they are initialised. -/
structure PackageVars where
  SigningMethodHS256 : SigningMethod
  SigningMethodHS384 : SigningMethod
  SigningMethodHS512 : SigningMethod
  world : World

/-- Initialisation of the `var` block, in the order of the declarations. -/
def initVars (w : World) : PackageVars :=
  let r1 := NewSigningMethodHMAC w (str "HS256") crypto.SHA256
  let r2 := NewSigningMethodHMAC r1.2 (str "HS384") crypto.SHA384
  let r3 := NewSigningMethodHMAC r2.2 (str "HS512") crypto.SHA512
  { SigningMethodHS256 := r1.1, SigningMethodHS384 := r2.1, SigningMethodHS512 := r3.1,
    world := r3.2 }

/-- The method `SigningMethodHS256` points to. -/
def HS256 : SigningMethodHMAC := { Name := str "HS256", Hash := crypto.SHA256 }

/-- The method `SigningMethodHS384` points to. -/
def HS384 : SigningMethodHMAC := { Name := str "HS384", Hash := crypto.SHA384 }

/-- The method `SigningMethodHS512` points to. -/
def HS512 : SigningMethodHMAC := { Name := str "HS512", Hash := crypto.SHA512 }

/-! ## A concrete environment -/

namespace base64url

/-- The URL-safe alphabet of RFC 4648, section 5. -/
def alphabet : List UInt8 :=
  str "ABCDEFGHIJKLMNOPQRSTUVWXYZabcdefghijklmnopqrstuvwxyz0123456789-_"

/-- The character for a six-bit value. -/
def encodeChar (v : Nat) : UInt8 := alphabet.getD v 0

/-- The six-bit value of a character of the alphabet. -/
def decodeChar (c : UInt8) : Option Nat :=
  if 65 ≤ c.toNat ∧ c.toNat ≤ 90 then some (c.toNat - 65)
  else if 97 ≤ c.toNat ∧ c.toNat ≤ 122 then some (c.toNat - 71)
  else if 48 ≤ c.toNat ∧ c.toNat ≤ 57 then some (c.toNat + 4)
  else if c.toNat = 45 then some 62
  else if c.toNat = 95 then some 63
  else none

/-- The six-bit values of a byte sequence; a last group of one or two bytes
gives two or three values, filled up with zero bits. -/
def sextets : Bytes → List Nat
  | a :: b :: c :: rest =>
    a.toNat / 4 :: (a.toNat % 4 * 16 + b.toNat / 16) :: (b.toNat % 16 * 4 + c.toNat / 64)
      :: c.toNat % 64 :: sextets rest
  | [a, b] => [a.toNat / 4, a.toNat % 4 * 16 + b.toNat / 16, b.toNat % 16 * 4]
  | [a] => [a.toNat / 4, a.toNat % 4 * 16]
  | [] => []

/-- The six-bit values of a string, or the offset of the first byte outside the
alphabet. -/
def values (off : Nat) : GoString → Except CorruptInputError (List Nat)
  | [] => .ok []
  | c :: cs =>
    match decodeChar c with
    | none => .error ⟨off⟩
    | some v => (values (off + 1) cs).map (v :: ·)

/-- The bytes of a sequence of six-bit values; the fill bits of a last group of
two or three values are dropped, and a last group of one value is no encoding. -/
def octets : List Nat → Option Bytes
  | v0 :: v1 :: v2 :: v3 :: rest =>
    (octets rest).map fun bs =>
      UInt8.ofNat (v0 * 4 + v1 / 16) :: UInt8.ofNat (v1 % 16 * 16 + v2 / 4)
        :: UInt8.ofNat (v2 % 4 * 64 + v3) :: bs
  | [v0, v1, v2] => some [UInt8.ofNat (v0 * 4 + v1 / 16), UInt8.ofNat (v1 % 16 * 16 + v2 / 4)]
  | [v0, v1] => some [UInt8.ofNat (v0 * 4 + v1 / 16)]
  | [_] => none
  | [] => some []

/-- Modelled from the spec: `encodeSegment`, which is not part of `hmac.go`; a
"deterministic, reversible textual encoding of a raw byte sequence (URL-safe,
no padding expected by callers)", here base64url without padding. -/
def EncodeSegment (seg : Bytes) : GoString := (sextets seg).map encodeChar

/-- Modelled from the spec: `decodeSegment`, which is not part of `hmac.go`; the
"inverse of the above; fails with a decoding error on malformed input". -/
def DecodeSegment (seg : GoString) : Except CorruptInputError Bytes :=
  match values 0 seg with
  | .error e => .error e
  | .ok vs =>
    match octets vs with
    | none => .error ⟨seg.length⟩
    | some bs => .ok bs

end base64url

/-- The hash object of `crypto/sha256`, `sha512.New384` or `sha512.New`. -/
def sha2.Variant.New (v : sha2.Variant) : HashFunc :=
  { Size := v.size, BlockSize := v.blockSize, Sum := sha2.sum v }

/-- The table of a binary that links `crypto/sha256` and `crypto/sha512`, as far
as the hashes of the three predefined methods go; every other entry is empty. -/
def stdHashes : crypto.Table := fun h =>
  if h = crypto.SHA256 then some sha2.sha256.New
  else if h = crypto.SHA384 then some sha2.sha384.New
  else if h = crypto.SHA512 then some sha2.sha512.New
  else none

/-- The environment of such a binary, with base64url as segment encoding. -/
def stdEnv : Env :=
  { hashes := stdHashes
    EncodeSegment := base64url.EncodeSegment
    DecodeSegment := base64url.DecodeSegment }

/-- The environment of a binary with no hash function linked in. -/
def bareEnv : Env := { stdEnv with hashes := fun _ => none }


/-- The environment of a binary that links `crypto/sha256` alone. -/
def sha256Env : Env :=
  { stdEnv with hashes := fun c => if c = crypto.SHA256 then some sha2.sha256.New else none }

/-- A method with the hash of HS256 under another name. -/
def renamedHS256 : SigningMethodHMAC := { Name := str "other", Hash := crypto.SHA256 }

/-! ## The scenario of the specification -/

/-- The MAC of `hello` under the key `secret` with SHA-256. -/
def helloMAC : Bytes :=
  [0x88, 0xaa, 0xb3, 0xed, 0xe8, 0xd3, 0xad, 0xf9, 0x4d, 0x26, 0xab, 0x90, 0xd3, 0xba, 0xfd, 0x4a,
   0x20, 0x83, 0x07, 0x0c, 0x3b, 0xcc, 0xe9, 0xc0, 0x14, 0xee, 0x04, 0xa4, 0x43, 0x84, 0x7c, 0x0b]

/-- The signature of the message `hello` under the key `secret` with HS256. -/
def helloSignature : GoString := str "iKqz7ejTrflNJquQ07r9SiCDBww7zOnAFO4EpEOEfAs"

/-! # Theorems -/

/-! ## Bytes -/

theorem nat_or_eq_zero (a b : Nat) : a ||| b = 0 ↔ a = 0 ∧ b = 0 := by
  constructor
  · intro h
    have h1 : ∀ i, (a ||| b).testBit i = false := by intro i; rw [h]; exact Nat.zero_testBit i
    constructor
    · apply Nat.eq_of_testBit_eq; intro i
      have := h1 i
      rw [Nat.testBit_or] at this
      simp only [Bool.or_eq_false_iff] at this
      rw [this.1, Nat.zero_testBit]
    · apply Nat.eq_of_testBit_eq; intro i
      have := h1 i
      rw [Nat.testBit_or] at this
      simp only [Bool.or_eq_false_iff] at this
      rw [this.2, Nat.zero_testBit]
  · rintro ⟨rfl, rfl⟩; rfl

theorem u8_toNat_lt (a : UInt8) : a.toNat < 256 := a.toBitVec.isLt

theorem u8_toNat_inj (a b : UInt8) : a.toNat = b.toNat ↔ a = b := by
  constructor
  · intro h
    apply UInt8.eq_of_toBitVec_eq
    apply BitVec.eq_of_toNat_eq
    exact h
  · intro h; rw [h]

theorem u8_eq_zero_iff (a : UInt8) : a = 0 ↔ a.toNat = 0 := by
  rw [← u8_toNat_inj]; rfl

theorem u8_toNat_xor (a b : UInt8) : (a ^^^ b).toNat = a.toNat ^^^ b.toNat := by
  show (a.toBitVec ^^^ b.toBitVec).toNat = _
  rw [BitVec.toNat_xor]; rfl

theorem u8_toNat_or (a b : UInt8) : (a ||| b).toNat = a.toNat ||| b.toNat := by
  show (a.toBitVec ||| b.toBitVec).toNat = _
  rw [BitVec.toNat_or]; rfl

theorem u8_xor_eq_zero (a b : UInt8) : a ^^^ b = 0 ↔ a = b := by
  rw [u8_eq_zero_iff, u8_toNat_xor, Nat.xor_eq_zero, u8_toNat_inj]

theorem u8_or_eq_zero (a b : UInt8) : a ||| b = 0 ↔ a = 0 ∧ b = 0 := by
  rw [u8_eq_zero_iff, u8_toNat_or, nat_or_eq_zero, ← u8_eq_zero_iff, ← u8_eq_zero_iff]

theorem u8_ofNat_toNat (a : UInt8) : UInt8.ofNat a.toNat = a := by
  apply UInt8.eq_of_toBitVec_eq
  apply BitVec.eq_of_toNat_eq
  show (BitVec.ofNat 8 a.toNat).toNat = a.toNat
  rw [BitVec.toNat_ofNat]
  exact Nat.mod_eq_of_lt (u8_toNat_lt a)

/-! ## The comparison of `crypto/subtle` decides equality -/

theorem ConstantTimeByteEq_eq_one (x y : UInt8) : subtle.ConstantTimeByteEq x y = 1 ↔ x = y := by
  unfold subtle.ConstantTimeByteEq
  rw [← u8_xor_eq_zero, u8_eq_zero_iff, Nat.shiftRight_eq_div_pow]
  have h := u8_toNat_lt (x ^^^ y)
  omega

theorem foldl_or_xor_eq_zero (ps : List (UInt8 × UInt8)) (v : UInt8) :
    ps.foldl (fun v p => v ||| (p.1 ^^^ p.2)) v = 0 ↔ v = 0 ∧ ∀ p ∈ ps, p.1 = p.2 := by
  induction ps generalizing v with
  | nil => simp
  | cons p ps ih =>
    rw [List.foldl_cons, ih, u8_or_eq_zero, u8_xor_eq_zero]
    simp only [List.mem_cons, forall_eq_or_imp]
    tauto

theorem zip_forall_eq (x y : Bytes) (h : x.length = y.length) :
    (∀ p ∈ List.zip x y, p.1 = p.2) ↔ x = y := by
  induction x generalizing y with
  | nil =>
    cases y with
    | nil => simp
    | cons b y => simp at h
  | cons a x ih =>
    cases y with
    | nil => simp at h
    | cons b y =>
      have h2 : x.length = y.length := by simpa using h
      simp only [List.zip_cons_cons, List.mem_cons, forall_eq_or_imp, List.cons.injEq, ih y h2]

theorem ConstantTimeCompare_eq_one (x y : Bytes) : subtle.ConstantTimeCompare x y = 1 ↔ x = y := by
  unfold subtle.ConstantTimeCompare
  by_cases h : x.length = y.length
  · rw [if_neg (not_not.mpr h), ConstantTimeByteEq_eq_one, foldl_or_xor_eq_zero,
      zip_forall_eq x y h]
    simp
  · rw [if_pos h]
    constructor
    · intro h0; exact absurd h0 (by decide)
    · intro hxy; exact absurd (congrArg List.length hxy) h

theorem Equal_iff (mac1 mac2 : Bytes) : hmac.Equal mac1 mac2 = true ↔ mac1 = mac2 := by
  unfold hmac.Equal
  rw [beq_iff_eq, ConstantTimeCompare_eq_one]

/-- What `Sign` and `Verify` compute with `hmac.New`, `Write` and `Sum(nil)` is
the MAC of RFC 2104. -/
theorem hasher_sum (h : HashFunc) (key text : Bytes) :
    ((hmac.New h key).Write text).Sum [] = HMAC h key text := by
  simp [hmac.New, hmac.HMAC.Write, hmac.HMAC.Sum, HMAC]


/-! ## The concrete segment encoding is reversible -/

theorem decodeChar_encodeChar (v : Nat) (h : v < 64) :
    base64url.decodeChar (base64url.encodeChar v) = some v := by
  interval_cases v <;> rfl

theorem sextets_lt (b : Bytes) : ∀ v ∈ base64url.sextets b, v < 64 := by
  induction b using base64url.sextets.induct with
  | case1 a b c rest ih =>
    intro v hv
    simp only [base64url.sextets, List.mem_cons] at hv
    have ha := u8_toNat_lt a
    have hb := u8_toNat_lt b
    have hc := u8_toNat_lt c
    rcases hv with rfl | rfl | rfl | rfl | hv
    · omega
    · omega
    · omega
    · omega
    · exact ih v hv
  | case2 a b =>
    intro v hv
    simp only [base64url.sextets, List.mem_cons, List.mem_singleton, List.not_mem_nil,
      or_false] at hv
    have ha := u8_toNat_lt a
    have hb := u8_toNat_lt b
    rcases hv with rfl | rfl | rfl <;> omega
  | case3 a =>
    intro v hv
    simp only [base64url.sextets, List.mem_cons, List.mem_singleton, List.not_mem_nil,
      or_false] at hv
    have ha := u8_toNat_lt a
    rcases hv with rfl | rfl <;> omega
  | case4 => intro v hv; simp [base64url.sextets] at hv

theorem values_map_encodeChar (vs : List Nat) (off : Nat) (h : ∀ v ∈ vs, v < 64) :
    base64url.values off (vs.map base64url.encodeChar) = .ok vs := by
  induction vs generalizing off with
  | nil => rfl
  | cons v vs ih =>
    have hv : v < 64 := h v (List.mem_cons_self v vs)
    have hvs : ∀ u ∈ vs, u < 64 := fun u hu => h u (List.mem_cons_of_mem v hu)
    simp only [List.map_cons, base64url.values, decodeChar_encodeChar v hv, ih (off + 1) hvs]
    rfl

theorem u8_ofNat_eq (a : UInt8) (n : Nat) (h : n = a.toNat) : UInt8.ofNat n = a := by
  rw [h, u8_ofNat_toNat]

theorem octets_sextets (b : Bytes) : base64url.octets (base64url.sextets b) = some b := by
  induction b using base64url.sextets.induct with
  | case1 a b c rest ih =>
    have ha := u8_toNat_lt a
    have hb := u8_toNat_lt b
    have hc := u8_toNat_lt c
    simp only [base64url.sextets, base64url.octets, ih, Option.map_some']
    rw [u8_ofNat_eq a _ (by omega), u8_ofNat_eq b _ (by omega), u8_ofNat_eq c _ (by omega)]
  | case2 a b =>
    have ha := u8_toNat_lt a
    have hb := u8_toNat_lt b
    simp only [base64url.sextets, base64url.octets]
    rw [u8_ofNat_eq a _ (by omega), u8_ofNat_eq b _ (by omega)]
  | case3 a =>
    have ha := u8_toNat_lt a
    simp only [base64url.sextets, base64url.octets]
    rw [u8_ofNat_eq a _ (by omega)]
  | case4 => rfl

/-- The contract of the two segment functions holds of the concrete pair. -/
theorem decode_encode (b : Bytes) :
    base64url.DecodeSegment (base64url.EncodeSegment b) = .ok b := by
  unfold base64url.DecodeSegment base64url.EncodeSegment
  rw [values_map_encodeChar _ 0 (sextets_lt b)]
  simp only [octets_sextets]


/-! ## `Sign` and `Verify` with a key of type `[]byte` -/

theorem available_of_some {t : crypto.Table} {c : crypto.Hash} {h : HashFunc}
    (hh : t c = some h) : c.Available t = true := by
  simp [crypto.Hash.Available, hh]

theorem new_of_some {t : crypto.Table} {c : crypto.Hash} {h : HashFunc}
    (hh : t c = some h) (ok : c.Available t = true) : c.New t ok = h := by
  simp [crypto.Hash.New, hh]

theorem sign_bytes (env : Env) (m : SigningMethodHMAC) (msg : GoString) (k : Bytes)
    (h : HashFunc) (hh : env.hashes m.Hash = some h) :
    m.Sign env msg (.bytes k) = (env.EncodeSegment (HMAC h k msg), none) := by
  have ok := available_of_some hh
  simp only [SigningMethodHMAC.Sign, Any.assertBytes, dif_pos ok, hasher_sum, new_of_some hh]

theorem verify_bytes (env : Env) (m : SigningMethodHMAC) (msg s : GoString) (k d : Bytes)
    (h : HashFunc) (hh : env.hashes m.Hash = some h) (hd : env.DecodeSegment s = .ok d) :
    m.Verify env msg s (.bytes k)
      = if d = HMAC h k msg then none else some ErrSignatureInvalid := by
  have ok := available_of_some hh
  simp only [SigningMethodHMAC.Verify, Any.assertBytes, hd, dif_pos ok, hasher_sum,
    new_of_some hh]
  by_cases hm : d = HMAC h k msg
  · rw [if_pos hm, if_neg]
    simp [(Equal_iff d (HMAC h k msg)).mpr hm]
  · rw [if_neg hm, if_pos]
    have : hmac.Equal d (HMAC h k msg) = false := by
      rw [← Bool.not_eq_true, Equal_iff]; exact hm
    simp [this]

theorem verify_decode_failed (env : Env) (m : SigningMethodHMAC) (msg s : GoString) (k : Bytes)
    (e : CorruptInputError) (hd : env.DecodeSegment s = .error e) :
    m.Verify env msg s (.bytes k) = some (.decode e) := by
  simp only [SigningMethodHMAC.Verify, Any.assertBytes, hd]

theorem stdEnv_contract (b : Bytes) : stdEnv.DecodeSegment (stdEnv.EncodeSegment b) = .ok b :=
  decode_encode b

/-! ## What `Sign` and `Verify` return -/

/-- C1: round trip. With the hash of the method available and the segment
functions satisfying `DecodeSegment(EncodeSegment(b)) = b`, for every key of type
`[]byte`, the empty one included, and every message, `Sign` returns a signature
with a nil error and `Verify` of that signature under the same key returns nil.
The method is arbitrary, so this holds of HS256, HS384 and HS512. -/
theorem sign_verify_roundtrip (env : Env) (m : SigningMethodHMAC) (msg : GoString) (k : Bytes)
    (havail : m.Hash.Available env.hashes = true)
    (hcontract : ∀ b, env.DecodeSegment (env.EncodeSegment b) = .ok b) :
    (m.Sign env msg (.bytes k)).2 = none
      ∧ m.Verify env msg (m.Sign env msg (.bytes k)).1 (.bytes k) = none := by
  obtain ⟨h, hh⟩ := Option.isSome_iff_exists.mp havail
  rw [sign_bytes env m msg k h hh]
  refine ⟨rfl, ?_⟩
  rw [verify_bytes env m msg _ k _ h hh (hcontract _), if_pos rfl]

/-- The round trip for the three predefined methods in the standard environment,
with the empty key and with a key longer than a block. -/
theorem sign_verify_roundtrip_witness :
    ((HS256.Sign stdEnv (str "hello") (.bytes [])).2 = none
      ∧ HS256.Verify stdEnv (str "hello") (HS256.Sign stdEnv (str "hello") (.bytes [])).1
          (.bytes []) = none)
    ∧ ((HS384.Sign stdEnv (str "hello") (.bytes (str "secret"))).2 = none
      ∧ HS384.Verify stdEnv (str "hello")
          (HS384.Sign stdEnv (str "hello") (.bytes (str "secret"))).1
          (.bytes (str "secret")) = none)
    ∧ ((HS512.Sign stdEnv [] (.bytes (List.replicate 200 7))).2 = none
      ∧ HS512.Verify stdEnv [] (HS512.Sign stdEnv [] (.bytes (List.replicate 200 7))).1
          (.bytes (List.replicate 200 7)) = none) :=
  ⟨sign_verify_roundtrip stdEnv HS256 (str "hello") [] rfl stdEnv_contract,
   sign_verify_roundtrip stdEnv HS384 (str "hello") (str "secret") rfl stdEnv_contract,
   sign_verify_roundtrip stdEnv HS512 [] (List.replicate 200 7) rfl stdEnv_contract⟩

/-- C2: with the hash of the method available, `h` being the function
registered for it, `Sign` with a key of type `[]byte` returns exactly
`EncodeSegment(HMAC(h, k, bytes(m)))` and a nil error. -/
theorem sign_eq_encode_hmac (env : Env) (m : SigningMethodHMAC) (msg : GoString) (k : Bytes)
    (h : HashFunc) (hh : env.hashes m.Hash = some h) :
    m.Sign env msg (.bytes k) = (env.EncodeSegment (HMAC h k msg), none) :=
  sign_bytes env m msg k h hh

theorem sign_eq_encode_hmac_witness :
    stdEnv.hashes HS256.Hash = some sha2.sha256.New
      ∧ HS256.Sign stdEnv (str "hello") (.bytes (str "secret"))
        = (stdEnv.EncodeSegment (HMAC sha2.sha256.New (str "secret") (str "hello")), none) :=
  ⟨rfl, sign_eq_encode_hmac stdEnv HS256 (str "hello") (str "secret") sha2.sha256.New rfl⟩

/-- C3: when the signature decodes to the bytes `d` and the hash is available,
`Verify` returns nil exactly when `d` equals the MAC of the message under the
key, byte for byte, and `ErrSignatureInvalid` otherwise. -/
theorem verify_nil_iff_mac (env : Env) (m : SigningMethodHMAC) (msg s : GoString) (k d : Bytes)
    (h : HashFunc) (hh : env.hashes m.Hash = some h) (hd : env.DecodeSegment s = .ok d) :
    (m.Verify env msg s (.bytes k) = none ↔ d = HMAC h k msg)
      ∧ (d ≠ HMAC h k msg → m.Verify env msg s (.bytes k) = some ErrSignatureInvalid) := by
  rw [verify_bytes env m msg s k d h hh hd]
  by_cases hm : d = HMAC h k msg
  · simp [hm]
  · simp [hm]


theorem verify_nil_iff_mac_witness :
    stdEnv.hashes HS256.Hash = some sha2.sha256.New
      ∧ stdEnv.DecodeSegment (str "AAAA") = .ok [0, 0, 0]
      ∧ ((HS256.Verify stdEnv (str "hello") (str "AAAA") (.bytes (str "secret")) = none
            ↔ [0, 0, 0] = HMAC sha2.sha256.New (str "secret") (str "hello"))
        ∧ ([0, 0, 0] ≠ HMAC sha2.sha256.New (str "secret") (str "hello")
            → HS256.Verify stdEnv (str "hello") (str "AAAA") (.bytes (str "secret"))
              = some ErrSignatureInvalid)) :=
  ⟨rfl, rfl,
    verify_nil_iff_mac stdEnv HS256 (str "hello") (str "AAAA") (str "secret") [0, 0, 0]
      sha2.sha256.New rfl rfl⟩

/-- C5: a key whose dynamic type is not `[]byte` (a string, a number, the nil
interface, a defined type) makes `Sign` return the empty string with
`ErrInvalidKeyType` and `Verify` return `ErrInvalidKeyType`, whatever the
message, the signature and the table of hashes are: the check of the key comes
before the decoding and before the check of the hash. -/
theorem invalid_key_type (env : Env) (m : SigningMethodHMAC) (msg s : GoString) (key : Any)
    (hkey : ∀ b, key ≠ .bytes b) :
    m.Sign env msg key = ([], some ErrInvalidKeyType)
      ∧ m.Verify env msg s key = some ErrInvalidKeyType := by
  cases key with
  | bytes b => exact absurd rfl (hkey b)
  | nil => exact ⟨rfl, rfl⟩
  | string t => exact ⟨rfl, rfl⟩
  | int n => exact ⟨rfl, rfl⟩
  | named t b => exact ⟨rfl, rfl⟩

/-- A string as key, in a binary without any hash and with a signature that
does not decode. -/
theorem invalid_key_type_witness :
    (∀ b, Any.string (str "secret") ≠ .bytes b)
      ∧ bareEnv.DecodeSegment (str "!") = .error ⟨0⟩
      ∧ HS256.Hash.Available bareEnv.hashes = false
      ∧ HS256.Sign bareEnv (str "hello") (.string (str "secret")) = ([], some ErrInvalidKeyType)
      ∧ HS256.Verify bareEnv (str "hello") (str "!") (.string (str "secret"))
        = some ErrInvalidKeyType :=
  ⟨fun _ h => Any.noConfusion h, rfl, rfl,
    invalid_key_type bareEnv HS256 (str "hello") (str "!") (.string (str "secret"))
      (fun _ h => Any.noConfusion h)⟩

/-- C6: with a key of type `[]byte`, when `DecodeSegment` fails on the signature
with the error `e`, `Verify` returns `e` itself and not `ErrSignatureInvalid`.
Nothing is assumed of the table of hashes: the decoding comes before the check
of the hash. -/
theorem verify_decode_error (env : Env) (m : SigningMethodHMAC) (msg s : GoString) (k : Bytes)
    (e : CorruptInputError) (hd : env.DecodeSegment s = .error e) :
    m.Verify env msg s (.bytes k) = some (.decode e)
      ∧ m.Verify env msg s (.bytes k) ≠ some ErrSignatureInvalid := by
  rw [verify_decode_failed env m msg s k e hd]
  exact ⟨rfl, fun h => Error.noConfusion (Option.some.inj h)⟩

/-- A signature outside the alphabet, in a binary without any hash. -/
theorem verify_decode_error_witness :
    bareEnv.DecodeSegment (str "!") = .error ⟨0⟩
      ∧ HS256.Hash.Available bareEnv.hashes = false
      ∧ HS256.Verify bareEnv (str "hello") (str "!") (.bytes (str "secret")) = some (.decode ⟨0⟩)
      ∧ HS256.Verify bareEnv (str "hello") (str "!") (.bytes (str "secret"))
        ≠ some ErrSignatureInvalid :=
  ⟨rfl, rfl,
    verify_decode_error bareEnv HS256 (str "hello") (str "!") (str "secret") ⟨0⟩ rfl⟩

/-- C7: when the hash of the method is not available, `Sign` with a key of type
`[]byte` returns the empty string with `ErrHashUnavailable`, and `Verify` returns
`ErrHashUnavailable` for every signature that decodes. -/
theorem hash_unavailable (env : Env) (m : SigningMethodHMAC) (msg : GoString) (k : Bytes)
    (hh : m.Hash.Available env.hashes = false) :
    m.Sign env msg (.bytes k) = ([], some ErrHashUnavailable)
      ∧ ∀ s d, env.DecodeSegment s = .ok d
          → m.Verify env msg s (.bytes k) = some ErrHashUnavailable := by
  have hn : ¬ m.Hash.Available env.hashes = true := by rw [hh]; exact Bool.false_ne_true
  constructor
  · simp only [SigningMethodHMAC.Sign, Any.assertBytes, dif_neg hn]
  · intro s d hd
    simp only [SigningMethodHMAC.Verify, Any.assertBytes, hd, dif_neg hn]

theorem hash_unavailable_witness :
    HS256.Hash.Available bareEnv.hashes = false
      ∧ HS256.Sign bareEnv (str "hello") (.bytes (str "secret")) = ([], some ErrHashUnavailable)
      ∧ ∀ s d, bareEnv.DecodeSegment s = .ok d
          → HS256.Verify bareEnv (str "hello") s (.bytes (str "secret"))
            = some ErrHashUnavailable :=
  ⟨rfl, hash_unavailable bareEnv HS256 (str "hello") (str "secret") rfl⟩


theorem set_ne_self (s : GoString) (i : Nat) (c : UInt8) (hi : i < s.length)
    (hc : s.get? i ≠ some c) : s.set i c ≠ s := by
  intro heq
  apply hc
  have h1 : (s.set i c).get? i = some c := by
    simp [List.getElem?_set, hi]
  rw [heq] at h1
  exact h1

/-- C4, as the code has it: a signature `s'` that differs from the signature
`s = Sign(m, k)` in exactly one byte is answered with the decoding error where
`DecodeSegment(s')` fails, with `ErrSignatureInvalid` where it gives bytes other
than the MAC, and with nil only where it gives the MAC itself; the last cannot
happen when `DecodeSegment` accepts nothing but what `EncodeSegment` produces. -/
theorem verify_changed_byte (env : Env) (m : SigningMethodHMAC) (msg s s' : GoString)
    (k : Bytes) (h : HashFunc) (i : Nat) (c : UInt8)
    (hh : env.hashes m.Hash = some h)
    (hs : s = (m.Sign env msg (.bytes k)).1)
    (hi : i < s.length) (hc : s.get? i ≠ some c) (hs' : s' = s.set i c) :
    (∀ e, env.DecodeSegment s' = .error e
        → m.Verify env msg s' (.bytes k) = some (.decode e))
      ∧ (∀ d, env.DecodeSegment s' = .ok d → d ≠ HMAC h k msg
        → m.Verify env msg s' (.bytes k) = some ErrSignatureInvalid)
      ∧ (m.Verify env msg s' (.bytes k) = none ↔ env.DecodeSegment s' = .ok (HMAC h k msg))
      ∧ ((∀ t d, env.DecodeSegment t = .ok d → t = env.EncodeSegment d)
        → m.Verify env msg s' (.bytes k) ≠ none) := by
  have hnil : m.Verify env msg s' (.bytes k) = none
      ↔ env.DecodeSegment s' = .ok (HMAC h k msg) := by
    cases hd : env.DecodeSegment s' with
    | error e =>
      rw [verify_decode_failed env m msg s' k e hd]
      constructor
      · intro h0; exact Option.noConfusion h0
      · intro h0; exact Except.noConfusion h0
    | ok d =>
      rw [verify_bytes env m msg s' k d h hh hd]
      by_cases hm : d = HMAC h k msg
      · simp [hm]
      · rw [if_neg hm]
        constructor
        · intro h0; exact Option.noConfusion h0
        · intro h0; exact absurd (Except.ok.inj h0) hm
  refine ⟨fun e hd => verify_decode_failed env m msg s' k e hd, ?_, hnil, ?_⟩
  · intro d hd hm
    rw [verify_bytes env m msg s' k d h hh hd, if_neg hm]
  · intro hcanon hv
    have h1 : s' = env.EncodeSegment (HMAC h k msg) := hcanon _ _ (hnil.mp hv)
    have h2 : s = env.EncodeSegment (HMAC h k msg) := by
      rw [hs, sign_bytes env m msg k h hh]
    exact set_ne_self s i c hi hc (by rw [← hs', h1, h2])

set_option maxRecDepth 100000 in
theorem sign_hello_secret :
    (HS256.Sign stdEnv (str "hello") (.bytes (str "secret"))).1 = helloSignature := by
  decide!

/-- The first byte of the signature of `hello` changed into an exclamation mark. -/
theorem verify_changed_byte_witness :
    stdEnv.hashes HS256.Hash = some sha2.sha256.New
      ∧ helloSignature = (HS256.Sign stdEnv (str "hello") (.bytes (str "secret"))).1
      ∧ 0 < helloSignature.length
      ∧ helloSignature.get? 0 ≠ some 33
      ∧ (∀ e, stdEnv.DecodeSegment (helloSignature.set 0 33) = .error e
          → HS256.Verify stdEnv (str "hello") (helloSignature.set 0 33) (.bytes (str "secret"))
            = some (.decode e))
      ∧ (∀ d, stdEnv.DecodeSegment (helloSignature.set 0 33) = .ok d
          → d ≠ HMAC sha2.sha256.New (str "secret") (str "hello")
          → HS256.Verify stdEnv (str "hello") (helloSignature.set 0 33) (.bytes (str "secret"))
            = some ErrSignatureInvalid)
      ∧ (HS256.Verify stdEnv (str "hello") (helloSignature.set 0 33) (.bytes (str "secret"))
            = none
          ↔ stdEnv.DecodeSegment (helloSignature.set 0 33)
            = .ok (HMAC sha2.sha256.New (str "secret") (str "hello")))
      ∧ ((∀ t d, stdEnv.DecodeSegment t = .ok d → t = stdEnv.EncodeSegment d)
          → HS256.Verify stdEnv (str "hello") (helloSignature.set 0 33) (.bytes (str "secret"))
            ≠ none) :=
  ⟨rfl, sign_hello_secret.symm, by decide, by decide,
    verify_changed_byte stdEnv HS256 (str "hello") helloSignature (helloSignature.set 0 33)
      (str "secret") sha2.sha256.New 0 33 rfl sign_hello_secret.symm (by decide) (by decide) rfl⟩

/-- C4 fails as it is written: the signature of `hello` under `secret` with its
first byte changed from `i` into `!` is answered with the decoding error, not
with `ErrSignatureInvalid`. -/
theorem changed_byte_gives_decode_error :
    (HS256.Sign stdEnv (str "hello") (.bytes (str "secret"))).1
        = str "iKqz7ejTrflNJquQ07r9SiCDBww7zOnAFO4EpEOEfAs"
      ∧ (str "iKqz7ejTrflNJquQ07r9SiCDBww7zOnAFO4EpEOEfAs").set 0 33
        = str "!Kqz7ejTrflNJquQ07r9SiCDBww7zOnAFO4EpEOEfAs"
      ∧ HS256.Verify stdEnv (str "hello") (str "!Kqz7ejTrflNJquQ07r9SiCDBww7zOnAFO4EpEOEfAs")
          (.bytes (str "secret")) = some (.decode ⟨0⟩)
      ∧ HS256.Verify stdEnv (str "hello") (str "!Kqz7ejTrflNJquQ07r9SiCDBww7zOnAFO4EpEOEfAs")
          (.bytes (str "secret")) ≠ some ErrSignatureInvalid := by
  refine ⟨sign_hello_secret, by decide, ?_, ?_⟩
  · decide
  · decide

set_option maxRecDepth 100000 in
/-- The concrete decoder drops the fill bits of the last character, as the
decoder of `encoding/base64` does unless it is made strict: the signature of
`hello` with its last byte changed from `s` into `t` decodes to the same MAC,
and `Verify` returns nil. -/
theorem changed_last_byte_accepted :
    (str "iKqz7ejTrflNJquQ07r9SiCDBww7zOnAFO4EpEOEfAs").set 42 116
        = str "iKqz7ejTrflNJquQ07r9SiCDBww7zOnAFO4EpEOEfAt"
      ∧ HS256.Verify stdEnv (str "hello") (str "iKqz7ejTrflNJquQ07r9SiCDBww7zOnAFO4EpEOEfAt")
          (.bytes (str "secret")) = none := by
  decide!


/-! ## Keys that sign alike -/

theorem hmac_congr_blockKey (h : HashFunc) (k1 k2 text : Bytes)
    (hk : hmac.blockKey h k1 = hmac.blockKey h k2) : HMAC h k1 text = HMAC h k2 text := by
  unfold HMAC
  rw [hk]

theorem blockKey_append_zero (h : HashFunc) (k : Bytes) (hk : k.length < h.BlockSize) :
    hmac.blockKey h (k ++ [0]) = hmac.blockKey h k := by
  have h1 : ¬ k.length + 1 > h.BlockSize := by omega
  have h2 : ¬ k.length > h.BlockSize := by omega
  have h3 : h.BlockSize - k.length = (h.BlockSize - (k.length + 1)) + 1 := by omega
  simp only [hmac.blockKey, List.length_append, List.length_singleton, if_neg h1, if_neg h2,
    List.append_assoc]
  rw [h3, List.replicate_succ]
  rfl

theorem blockKey_digest (h : HashFunc) (k : Bytes) (hk : h.BlockSize < k.length)
    (hs : (h.Sum k).length ≤ h.BlockSize) :
    hmac.blockKey h (h.Sum k) = hmac.blockKey h k := by
  have h1 : ¬ (h.Sum k).length > h.BlockSize := by omega
  have h2 : k.length > h.BlockSize := hk
  simp only [hmac.blockKey, if_neg h1, if_pos h2]

theorem encode_injective (env : Env)
    (hcontract : ∀ b, env.DecodeSegment (env.EncodeSegment b) = .ok b) (a b : Bytes)
    (hab : env.EncodeSegment a = env.EncodeSegment b) : a = b := by
  have h1 := hcontract a
  rw [hab, hcontract b] at h1
  exact (Except.ok.inj h1).symm

/-- C8, as the code has it: with the hash available and the segment functions
satisfying their contract, two keys give different signatures of a message
exactly when they give different MACs of it. Keys that `hmac.New` stores as the
same block sign alike: a key shorter than a block and that key followed by a
zero byte, and a key longer than a block and its digest. -/
theorem sign_ne_iff_mac_ne (env : Env) (m : SigningMethodHMAC) (msg : GoString) (k1 k2 : Bytes)
    (h : HashFunc) (hh : env.hashes m.Hash = some h)
    (hcontract : ∀ b, env.DecodeSegment (env.EncodeSegment b) = .ok b) :
    ((m.Sign env msg (.bytes k1)).1 ≠ (m.Sign env msg (.bytes k2)).1
        ↔ HMAC h k1 msg ≠ HMAC h k2 msg)
      ∧ (hmac.blockKey h k1 = hmac.blockKey h k2
        → m.Sign env msg (.bytes k1) = m.Sign env msg (.bytes k2))
      ∧ (k1.length < h.BlockSize
        → m.Sign env msg (.bytes (k1 ++ [0])) = m.Sign env msg (.bytes k1))
      ∧ (h.BlockSize < k1.length → (h.Sum k1).length ≤ h.BlockSize
        → m.Sign env msg (.bytes (h.Sum k1)) = m.Sign env msg (.bytes k1)) := by
  simp only [sign_bytes env m msg _ h hh]
  refine ⟨?_, ?_, ?_, ?_⟩
  · constructor
    · intro hne hmac
      exact hne (by rw [hmac])
    · intro hne henc
      exact hne (encode_injective env hcontract _ _ henc)
  · intro hk
    rw [hmac_congr_blockKey h k1 k2 msg hk]
  · intro hk
    rw [hmac_congr_blockKey h _ _ msg (blockKey_append_zero h k1 hk)]
  · intro hk hs
    rw [hmac_congr_blockKey h _ _ msg (blockKey_digest h k1 hk hs)]

theorem sign_ne_iff_mac_ne_witness :
    stdEnv.hashes HS256.Hash = some sha2.sha256.New
      ∧ ((HS256.Sign stdEnv (str "hello") (.bytes (str "secret"))).1
            ≠ (HS256.Sign stdEnv (str "hello") (.bytes (str "wrong"))).1
          ↔ HMAC sha2.sha256.New (str "secret") (str "hello")
            ≠ HMAC sha2.sha256.New (str "wrong") (str "hello"))
      ∧ (hmac.blockKey sha2.sha256.New (str "secret") = hmac.blockKey sha2.sha256.New (str "wrong")
        → HS256.Sign stdEnv (str "hello") (.bytes (str "secret"))
          = HS256.Sign stdEnv (str "hello") (.bytes (str "wrong")))
      ∧ ((str "secret").length < sha2.sha256.New.BlockSize
        → HS256.Sign stdEnv (str "hello") (.bytes (str "secret" ++ [0]))
          = HS256.Sign stdEnv (str "hello") (.bytes (str "secret")))
      ∧ (sha2.sha256.New.BlockSize < (str "secret").length
        → (sha2.sha256.New.Sum (str "secret")).length ≤ sha2.sha256.New.BlockSize
        → HS256.Sign stdEnv (str "hello") (.bytes (sha2.sha256.New.Sum (str "secret")))
          = HS256.Sign stdEnv (str "hello") (.bytes (str "secret"))) :=
  ⟨rfl, sign_ne_iff_mac_ne stdEnv HS256 (str "hello") (str "secret") (str "wrong")
    sha2.sha256.New rfl stdEnv_contract⟩

set_option maxRecDepth 100000 in
/-- C8 fails as it is written: under HS256 the empty key and the key of one
zero byte sign `hello` alike, and so do a key of 65 bytes, one more than a
block, and its SHA-256 digest. -/
theorem distinct_keys_sign_alike :
    (([] : Bytes) ≠ [0]
        ∧ HS256.Sign stdEnv (str "hello") (.bytes [])
          = HS256.Sign stdEnv (str "hello") (.bytes [0]))
      ∧ (List.replicate 65 (7 : UInt8) ≠ sha2.sum sha2.sha256 (List.replicate 65 7)
        ∧ HS256.Sign stdEnv (str "hello") (.bytes (List.replicate 65 7))
          = HS256.Sign stdEnv (str "hello") (.bytes (sha2.sum sha2.sha256 (List.replicate 65 7)))) := by
  decide!

/-! ## The scenario of the specification, evaluated -/

set_option maxRecDepth 100000 in
theorem hmac_hello_secret : HMAC sha2.sha256.New (str "secret") (str "hello") = helloMAC := by
  decide!

set_option maxRecDepth 100000 in
theorem hmac_hello_wrong : HMAC sha2.sha256.New (str "wrong") (str "hello") ≠ helloMAC := by
  decide!

/-- C9: HS256 with the bytes of `secret` as key and the message `hello`, in any
environment that links SHA-256 and whose segment functions satisfy their
contract: `Sign` returns the fixed string `S`, the encoding of the 32 bytes
`helloMAC`, with a nil error; `Verify` of `S` returns nil under the key `secret`
and `ErrSignatureInvalid` under the key `wrong`. -/
theorem hs256_hello_scenario (env : Env)
    (hh : env.hashes crypto.SHA256 = some sha2.sha256.New)
    (hcontract : ∀ b, env.DecodeSegment (env.EncodeSegment b) = .ok b) :
    HS256.Sign env (str "hello") (.bytes (str "secret")) = (env.EncodeSegment helloMAC, none)
      ∧ HS256.Verify env (str "hello") (env.EncodeSegment helloMAC) (.bytes (str "secret")) = none
      ∧ HS256.Verify env (str "hello") (env.EncodeSegment helloMAC) (.bytes (str "wrong"))
        = some ErrSignatureInvalid := by
  have hh' : env.hashes HS256.Hash = some sha2.sha256.New := hh
  refine ⟨?_, ?_, ?_⟩
  · rw [sign_bytes env HS256 _ _ _ hh', hmac_hello_secret]
  · rw [verify_bytes env HS256 _ _ _ _ _ hh' (hcontract helloMAC), hmac_hello_secret, if_pos rfl]
  · rw [verify_bytes env HS256 _ _ _ _ _ hh' (hcontract helloMAC), if_neg]
    exact fun h0 => hmac_hello_wrong h0.symm

/-- In the standard environment `S` is `iKqz7ejTrflNJquQ07r9SiCDBww7zOnAFO4EpEOEfAs`. -/
theorem hs256_hello_scenario_witness :
    stdEnv.hashes crypto.SHA256 = some sha2.sha256.New
      ∧ stdEnv.EncodeSegment helloMAC = str "iKqz7ejTrflNJquQ07r9SiCDBww7zOnAFO4EpEOEfAs"
      ∧ HS256.Sign stdEnv (str "hello") (.bytes (str "secret"))
        = (stdEnv.EncodeSegment helloMAC, none)
      ∧ HS256.Verify stdEnv (str "hello") (stdEnv.EncodeSegment helloMAC) (.bytes (str "secret"))
        = none
      ∧ HS256.Verify stdEnv (str "hello") (stdEnv.EncodeSegment helloMAC) (.bytes (str "wrong"))
        = some ErrSignatureInvalid :=
  ⟨rfl, by decide, hs256_hello_scenario stdEnv rfl stdEnv_contract⟩


/-! ## Registration -/

theorem new_fst (w : World) (name : GoString) (hash : crypto.Hash) :
    (NewSigningMethodHMAC w name hash).1 = w.heap.length := rfl

theorem new_world (w : World) (name : GoString) (hash : crypto.Hash) :
    (NewSigningMethodHMAC w name hash).2
      = { heap := w.heap ++ [{ Name := name, Hash := hash }]
          signingMethods := fun a =>
            if a = name then some (fun _ => w.heap.length) else w.signingMethods a } := by
  simp [NewSigningMethodHMAC, Register, World.deref, RegisterSigningMethod]

theorem new_deref (w : World) (name : GoString) (hash : crypto.Hash) :
    (NewSigningMethodHMAC w name hash).2.deref (NewSigningMethodHMAC w name hash).1
      = some { Name := name, Hash := hash } := by
  rw [new_world, new_fst]
  simp [World.deref]

theorem new_deref_old (w : World) (name : GoString) (hash : crypto.Hash) (p : SigningMethod)
    (v : SigningMethodHMAC) (hp : w.deref p = some v) :
    (NewSigningMethodHMAC w name hash).2.deref p = some v := by
  rw [new_world]
  simp only [World.deref, List.get?_eq_getElem?] at hp ⊢
  have hlt : p < w.heap.length := (List.getElem?_eq_some.mp hp).1
  rw [List.getElem?_append_left hlt]
  exact hp

theorem new_lookup (w : World) (name : GoString) (hash : crypto.Hash) :
    lookup (NewSigningMethodHMAC w name hash).2 name = some (NewSigningMethodHMAC w name hash).1 := by
  rw [new_world, new_fst]
  simp [lookup]

theorem new_lookup_other (w : World) (name other : GoString) (hash : crypto.Hash)
    (hne : other ≠ name) :
    lookup (NewSigningMethodHMAC w name hash).2 other = lookup w other := by
  rw [new_world]
  simp [lookup, hne]

/-- C10: `NewSigningMethodHMAC(name, hash)` returns a pointer to a method with
`Alg() = name` and the hash `hash`, and registers under `name` a factory that
returns this very pointer at every call, so that the lookup of `name` gives it.
After the three package variables are initialised, from whatever state, the
lookups of `HS256`, `HS384` and `HS512` give the three variables, which point
to methods named as queried with the hashes SHA-256, SHA-384 and SHA-512. -/
theorem new_signing_method_registered (w : World) (name : GoString) (hash : crypto.Hash) :
    (((NewSigningMethodHMAC w name hash).2.deref (NewSigningMethodHMAC w name hash).1).map
          SigningMethodHMAC.Alg = some name
        ∧ ((NewSigningMethodHMAC w name hash).2.deref (NewSigningMethodHMAC w name hash).1).map
          SigningMethodHMAC.Hash = some hash
        ∧ (∃ f, (NewSigningMethodHMAC w name hash).2.signingMethods name = some f
            ∧ ∀ u, f u = (NewSigningMethodHMAC w name hash).1)
        ∧ lookup (NewSigningMethodHMAC w name hash).2 name
          = some (NewSigningMethodHMAC w name hash).1)
      ∧ (lookup (initVars w).world (str "HS256") = some (initVars w).SigningMethodHS256
        ∧ (initVars w).world.deref (initVars w).SigningMethodHS256 = some HS256
        ∧ ((initVars w).world.deref (initVars w).SigningMethodHS256).map SigningMethodHMAC.Alg
          = some (str "HS256")
        ∧ ((initVars w).world.deref (initVars w).SigningMethodHS256).map SigningMethodHMAC.Hash
          = some crypto.SHA256)
      ∧ (lookup (initVars w).world (str "HS384") = some (initVars w).SigningMethodHS384
        ∧ (initVars w).world.deref (initVars w).SigningMethodHS384 = some HS384
        ∧ ((initVars w).world.deref (initVars w).SigningMethodHS384).map SigningMethodHMAC.Alg
          = some (str "HS384")
        ∧ ((initVars w).world.deref (initVars w).SigningMethodHS384).map SigningMethodHMAC.Hash
          = some crypto.SHA384)
      ∧ (lookup (initVars w).world (str "HS512") = some (initVars w).SigningMethodHS512
        ∧ (initVars w).world.deref (initVars w).SigningMethodHS512 = some HS512
        ∧ ((initVars w).world.deref (initVars w).SigningMethodHS512).map SigningMethodHMAC.Alg
          = some (str "HS512")
        ∧ ((initVars w).world.deref (initVars w).SigningMethodHS512).map SigningMethodHMAC.Hash
          = some crypto.SHA512) := by
  have d256 : (initVars w).world.deref (initVars w).SigningMethodHS256 = some HS256 :=
    new_deref_old _ _ _ _ _ (new_deref_old _ _ _ _ _ (new_deref w _ _))
  have d384 : (initVars w).world.deref (initVars w).SigningMethodHS384 = some HS384 :=
    new_deref_old _ _ _ _ _ (new_deref _ _ _)
  have d512 : (initVars w).world.deref (initVars w).SigningMethodHS512 = some HS512 :=
    new_deref _ _ _
  refine ⟨⟨?_, ?_, ?_, new_lookup w name hash⟩, ⟨?_, d256, ?_, ?_⟩, ⟨?_, d384, ?_, ?_⟩,
    ⟨new_lookup _ _ _, d512, ?_, ?_⟩⟩
  · rw [new_deref]; rfl
  · rw [new_deref]; rfl
  · rw [new_world, new_fst]
    exact ⟨fun _ => w.heap.length, by simp, fun _ => rfl⟩
  · show lookup (NewSigningMethodHMAC _ (str "HS512") crypto.SHA512).2 (str "HS256") = _
    rw [new_lookup_other _ _ _ _ (by decide), new_lookup_other _ _ _ _ (by decide), new_lookup]
    rfl
  · rw [d256]; rfl
  · rw [d256]; rfl
  · show lookup (NewSigningMethodHMAC _ (str "HS512") crypto.SHA512).2 (str "HS384") = _
    rw [new_lookup_other _ _ _ _ (by decide), new_lookup]
    rfl
  · rw [d384]; rfl
  · rw [d384]; rfl
  · rw [d512]; rfl
  · rw [d512]; rfl


/-! ## The size of a digest -/

theorem beBytes_length (n x : Nat) : (sha2.beBytes n x).length = n := by
  induction n with
  | zero => rfl
  | succ n ih => simp only [sha2.beBytes, List.length_cons, ih]

theorem flatMap_beBytes_length (n : Nat) (ws : List Nat) :
    (ws.flatMap (sha2.beBytes n)).length = ws.length * n := by
  induction ws with
  | nil => simp
  | cons w ws ih =>
    simp only [List.flatMap_cons, List.length_append, List.length_cons, beBytes_length, ih]
    rw [Nat.add_mul, Nat.one_mul, Nat.add_comm]

/-- A digest has `size` bytes, whatever was hashed. -/
theorem sum_length (v : sha2.Variant) (msg : Bytes) (hv : v.outWords ≤ 8) :
    (sha2.sum v msg).length = v.size := by
  simp only [sha2.sum, flatMap_beBytes_length, List.length_take, sha2.State.words,
    List.length_cons, List.length_nil, sha2.Variant.size]
  rw [Nat.min_eq_left hv]

theorem new_sum_length (v : sha2.Variant) (hv : v.outWords ≤ 8) (x : Bytes) :
    (v.New.Sum x).length = v.New.Size :=
  sum_length v x hv

theorem hmac_length (h : HashFunc) (hsize : ∀ x, (h.Sum x).length = h.Size) (k text : Bytes) :
    (HMAC h k text).length = h.Size := by
  unfold HMAC
  exact hsize _


/-! ## Further properties of `Sign` and `Verify` -/

theorem sign_bytes_unavailable (env : Env) (m : SigningMethodHMAC) (msg : GoString) (k : Bytes)
    (hh : env.hashes m.Hash = none) :
    m.Sign env msg (.bytes k) = ([], some ErrHashUnavailable) := by
  have hn : ¬ m.Hash.Available env.hashes = true := by simp [crypto.Hash.Available, hh]
  simp only [SigningMethodHMAC.Sign, Any.assertBytes, dif_neg hn]

theorem verify_bytes_unavailable (env : Env) (m : SigningMethodHMAC) (msg s : GoString)
    (k d : Bytes) (hh : env.hashes m.Hash = none) (hd : env.DecodeSegment s = .ok d) :
    m.Verify env msg s (.bytes k) = some ErrHashUnavailable := by
  have hn : ¬ m.Hash.Available env.hashes = true := by simp [crypto.Hash.Available, hh]
  simp only [SigningMethodHMAC.Verify, Any.assertBytes, hd, dif_neg hn]

/-- C11: determinism. The results of `Sign` and `Verify` are fixed by their
arguments, by the hash function registered for the hash of the method and by the
segment functions, and by nothing else: two methods, in two environments, that
agree on these return the same signature and error from `Sign` and the same
result from `Verify`. The name of the method and the rest of the table of hashes
play no part; two calls with the same method in the same environment are the
case where everything agrees. -/
theorem sign_verify_deterministic (env1 env2 : Env) (m1 m2 : SigningMethodHMAC)
    (msg sig : GoString) (key : Any)
    (hhash : env1.hashes m1.Hash = env2.hashes m2.Hash) :
    (env1.EncodeSegment = env2.EncodeSegment → m1.Sign env1 msg key = m2.Sign env2 msg key)
      ∧ (env1.DecodeSegment sig = env2.DecodeSegment sig
        → m1.Verify env1 msg sig key = m2.Verify env2 msg sig key) := by
  cases key with
  | nil => exact ⟨fun _ => rfl, fun _ => rfl⟩
  | string t => exact ⟨fun _ => rfl, fun _ => rfl⟩
  | int n => exact ⟨fun _ => rfl, fun _ => rfl⟩
  | named t b => exact ⟨fun _ => rfl, fun _ => rfl⟩
  | bytes k =>
    cases h1 : env1.hashes m1.Hash with
    | none =>
      have h2 : env2.hashes m2.Hash = none := by rw [← hhash, h1]
      constructor
      · intro _
        rw [sign_bytes_unavailable env1 m1 msg k h1, sign_bytes_unavailable env2 m2 msg k h2]
      · intro hdec
        cases hd : env1.DecodeSegment sig with
        | error e =>
          rw [verify_decode_failed env1 m1 msg sig k e hd,
            verify_decode_failed env2 m2 msg sig k e (by rw [← hdec, hd])]
        | ok d =>
          rw [verify_bytes_unavailable env1 m1 msg sig k d h1 hd,
            verify_bytes_unavailable env2 m2 msg sig k d h2 (by rw [← hdec, hd])]
    | some h =>
      have h2 : env2.hashes m2.Hash = some h := by rw [← hhash, h1]
      constructor
      · intro henc
        rw [sign_bytes env1 m1 msg k h h1, sign_bytes env2 m2 msg k h h2, henc]
      · intro hdec
        cases hd : env1.DecodeSegment sig with
        | error e =>
          rw [verify_decode_failed env1 m1 msg sig k e hd,
            verify_decode_failed env2 m2 msg sig k e (by rw [← hdec, hd])]
        | ok d =>
          rw [verify_bytes env1 m1 msg sig k d h h1 hd,
            verify_bytes env2 m2 msg sig k d h h2 (by rw [← hdec, hd])]

/-- HS256 in the standard environment and a method of another name with the
same hash, in an environment that links SHA-256 alone. -/
theorem sign_verify_deterministic_witness :
    stdEnv.hashes HS256.Hash = sha256Env.hashes renamedHS256.Hash
      ∧ HS256.Name ≠ renamedHS256.Name
      ∧ stdEnv.hashes crypto.SHA512 ≠ sha256Env.hashes crypto.SHA512
      ∧ (stdEnv.EncodeSegment = sha256Env.EncodeSegment
        → HS256.Sign stdEnv (str "hello") (.bytes (str "secret"))
          = renamedHS256.Sign sha256Env (str "hello") (.bytes (str "secret")))
      ∧ (stdEnv.DecodeSegment (str "AAAA") = sha256Env.DecodeSegment (str "AAAA")
        → HS256.Verify stdEnv (str "hello") (str "AAAA") (.bytes (str "secret"))
          = renamedHS256.Verify sha256Env (str "hello") (str "AAAA") (.bytes (str "secret"))) :=
  ⟨rfl, by decide, fun h => Option.noConfusion h,
    sign_verify_deterministic stdEnv sha256Env HS256 renamedHS256 (str "hello") (str "AAAA")
      (.bytes (str "secret")) rfl⟩


theorem sign_decodes_to_size (env : Env) (m : SigningMethodHMAC) (msg : GoString) (k : Bytes)
    (v : sha2.Variant) (hv : v.outWords ≤ 8) (hh : env.hashes m.Hash = some v.New)
    (hcontract : ∀ b, env.DecodeSegment (env.EncodeSegment b) = .ok b) :
    ∃ d, env.DecodeSegment (m.Sign env msg (.bytes k)).1 = .ok d ∧ d.length = v.size := by
  rw [sign_bytes env m msg k v.New hh]
  exact ⟨HMAC v.New k msg, hcontract _, hmac_length v.New (new_sum_length v hv) k msg⟩

/-- C13: fixed signature size. In an environment that links SHA-256, SHA-384 and
SHA-512 and whose segment functions satisfy their contract, for every key of
type `[]byte` and every message, of any length, the signature `Sign` returns
under HS256, HS384 and HS512 decodes to exactly 32, 48 and 64 bytes. -/
theorem signature_size (env : Env) (msg : GoString) (k : Bytes)
    (h256 : env.hashes crypto.SHA256 = some sha2.sha256.New)
    (h384 : env.hashes crypto.SHA384 = some sha2.sha384.New)
    (h512 : env.hashes crypto.SHA512 = some sha2.sha512.New)
    (hcontract : ∀ b, env.DecodeSegment (env.EncodeSegment b) = .ok b) :
    (∃ d, env.DecodeSegment (HS256.Sign env msg (.bytes k)).1 = .ok d ∧ d.length = 32)
      ∧ (∃ d, env.DecodeSegment (HS384.Sign env msg (.bytes k)).1 = .ok d ∧ d.length = 48)
      ∧ (∃ d, env.DecodeSegment (HS512.Sign env msg (.bytes k)).1 = .ok d ∧ d.length = 64) :=
  ⟨sign_decodes_to_size env HS256 msg k sha2.sha256 (by decide) h256 hcontract,
   sign_decodes_to_size env HS384 msg k sha2.sha384 (by decide) h384 hcontract,
   sign_decodes_to_size env HS512 msg k sha2.sha512 (by decide) h512 hcontract⟩

/-- The empty message under the empty key, in the standard environment. -/
theorem signature_size_witness :
    (∃ d, stdEnv.DecodeSegment (HS256.Sign stdEnv [] (.bytes [])).1 = .ok d ∧ d.length = 32)
      ∧ (∃ d, stdEnv.DecodeSegment (HS384.Sign stdEnv [] (.bytes [])).1 = .ok d ∧ d.length = 48)
      ∧ (∃ d, stdEnv.DecodeSegment (HS512.Sign stdEnv [] (.bytes [])).1 = .ok d
          ∧ d.length = 64) :=
  signature_size stdEnv [] [] rfl rfl rfl stdEnv_contract

/-- C14: cross-pair verification. With the hash available and the segment
functions satisfying their contract, `Verify(m2, Sign(m1, k1), k2)` returns nil
exactly when the MAC of `m1` under `k1` equals the MAC of `m2` under `k2`, and
`ErrSignatureInvalid` otherwise; and `Sign(m1, k1)` and `Sign(m2, k2)` are the
same string exactly when the two MACs are equal. -/
theorem cross_verify (env : Env) (m : SigningMethodHMAC) (msg1 msg2 : GoString) (k1 k2 : Bytes)
    (h : HashFunc) (hh : env.hashes m.Hash = some h)
    (hcontract : ∀ b, env.DecodeSegment (env.EncodeSegment b) = .ok b) :
    (m.Verify env msg2 (m.Sign env msg1 (.bytes k1)).1 (.bytes k2) = none
        ↔ HMAC h k1 msg1 = HMAC h k2 msg2)
      ∧ (HMAC h k1 msg1 ≠ HMAC h k2 msg2
        → m.Verify env msg2 (m.Sign env msg1 (.bytes k1)).1 (.bytes k2)
          = some ErrSignatureInvalid)
      ∧ ((m.Sign env msg1 (.bytes k1)).1 = (m.Sign env msg2 (.bytes k2)).1
        ↔ HMAC h k1 msg1 = HMAC h k2 msg2) := by
  simp only [sign_bytes env m _ _ h hh]
  rw [verify_bytes env m msg2 _ k2 _ h hh (hcontract _)]
  refine ⟨?_, ?_, ?_⟩
  · by_cases hm : HMAC h k1 msg1 = HMAC h k2 msg2
    · simp [hm]
    · simp [hm]
  · intro hm
    rw [if_neg hm]
  · constructor
    · exact encode_injective env hcontract _ _
    · intro hm
      rw [hm]

theorem cross_verify_witness :
    stdEnv.hashes HS256.Hash = some sha2.sha256.New
      ∧ (HS256.Verify stdEnv (str "world")
            (HS256.Sign stdEnv (str "hello") (.bytes (str "secret"))).1 (.bytes (str "wrong"))
            = none
          ↔ HMAC sha2.sha256.New (str "secret") (str "hello")
            = HMAC sha2.sha256.New (str "wrong") (str "world"))
      ∧ (HMAC sha2.sha256.New (str "secret") (str "hello")
            ≠ HMAC sha2.sha256.New (str "wrong") (str "world")
        → HS256.Verify stdEnv (str "world")
            (HS256.Sign stdEnv (str "hello") (.bytes (str "secret"))).1 (.bytes (str "wrong"))
          = some ErrSignatureInvalid)
      ∧ ((HS256.Sign stdEnv (str "hello") (.bytes (str "secret"))).1
            = (HS256.Sign stdEnv (str "world") (.bytes (str "wrong"))).1
          ↔ HMAC sha2.sha256.New (str "secret") (str "hello")
            = HMAC sha2.sha256.New (str "wrong") (str "world")) :=
  ⟨rfl, cross_verify stdEnv HS256 (str "hello") (str "world") (str "secret") (str "wrong")
    sha2.sha256.New rfl stdEnv_contract⟩

/-- C15: a length mismatch is rejected. With the hash available, its digests
being of the size it declares, and a key of type `[]byte`: a signature that
decodes to a byte sequence of another length than that size, be it empty, a
strict part of the MAC or the MAC with bytes after it, makes `Verify` return
`ErrSignatureInvalid`, never nil. -/
theorem verify_length_mismatch (env : Env) (m : SigningMethodHMAC) (msg s : GoString)
    (k d : Bytes) (h : HashFunc) (hh : env.hashes m.Hash = some h)
    (hsize : ∀ x, (h.Sum x).length = h.Size)
    (hd : env.DecodeSegment s = .ok d) (hlen : d.length ≠ h.Size) :
    m.Verify env msg s (.bytes k) = some ErrSignatureInvalid
      ∧ m.Verify env msg s (.bytes k) ≠ none := by
  have hne : d ≠ HMAC h k msg := by
    intro heq
    apply hlen
    rw [heq, hmac_length h hsize]
  rw [verify_bytes env m msg s k d h hh hd, if_neg hne]
  exact ⟨rfl, fun h0 => Option.noConfusion h0⟩

/-- The empty signature, the MAC of `hello` without its last byte and that MAC
with a zero byte after it, under HS256 in the standard environment. -/
theorem verify_length_mismatch_witness :
    (stdEnv.hashes HS256.Hash = some sha2.sha256.New
        ∧ (∀ x, (sha2.sha256.New.Sum x).length = sha2.sha256.New.Size)
        ∧ sha2.sha256.New.Size = 32)
      ∧ (stdEnv.DecodeSegment [] = .ok [] ∧ ([] : Bytes).length ≠ sha2.sha256.New.Size
        ∧ HS256.Verify stdEnv (str "hello") [] (.bytes (str "secret")) = some ErrSignatureInvalid
        ∧ HS256.Verify stdEnv (str "hello") [] (.bytes (str "secret")) ≠ none)
      ∧ ((helloMAC.take 31).length ≠ sha2.sha256.New.Size
        ∧ HS256.Verify stdEnv (str "hello") (stdEnv.EncodeSegment (helloMAC.take 31))
            (.bytes (str "secret")) = some ErrSignatureInvalid
        ∧ HS256.Verify stdEnv (str "hello") (stdEnv.EncodeSegment (helloMAC.take 31))
            (.bytes (str "secret")) ≠ none)
      ∧ ((helloMAC ++ [0]).length ≠ sha2.sha256.New.Size
        ∧ HS256.Verify stdEnv (str "hello") (stdEnv.EncodeSegment (helloMAC ++ [0]))
            (.bytes (str "secret")) = some ErrSignatureInvalid
        ∧ HS256.Verify stdEnv (str "hello") (stdEnv.EncodeSegment (helloMAC ++ [0]))
            (.bytes (str "secret")) ≠ none) :=
  ⟨⟨rfl, new_sum_length sha2.sha256 (by decide), rfl⟩,
   ⟨rfl, by decide,
    verify_length_mismatch stdEnv HS256 (str "hello") [] (str "secret") [] sha2.sha256.New rfl
      (new_sum_length sha2.sha256 (by decide)) rfl (by decide)⟩,
   ⟨by decide,
    verify_length_mismatch stdEnv HS256 (str "hello") _ (str "secret") (helloMAC.take 31)
      sha2.sha256.New rfl (new_sum_length sha2.sha256 (by decide)) (stdEnv_contract _)
      (by decide)⟩,
   ⟨by decide,
    verify_length_mismatch stdEnv HS256 (str "hello") _ (str "secret") (helloMAC ++ [0])
      sha2.sha256.New rfl (new_sum_length sha2.sha256 (by decide)) (stdEnv_contract _)
      (by decide)⟩⟩

end jwt
